/-
Verification of the ClawMail3 / MailDeck email client against its
natural-language specification.

Each section embeds one part of the TypeScript source as executable Lean
definitions (shallow embedding: JSON values become an inductive type,
filesystem state becomes explicit record state, JS numbers become Nat/Int
with explicit 32-bit wrapping where the source relies on it), and proves
or refutes the spec's claims about it.
-/
import Mathlib

set_option maxRecDepth 4000

namespace ClawMail

/- ───────────────────────── Outbox state machine ─────────────────────────
   Source: outbox transition module (`transitionDraft`, `InvalidTransitionError`)
   and the shared constants module (`OUTBOX_TRANSITIONS`, `OUTBOX_STATUSES`). -/

/-- A draft JSON file on disk: its `status` field plus the remaining fields,
modelled as an association list of key/value pairs. -/
structure OutboxDraft where
  status : String
  fields : List (String × String)
deriving Repr, DecidableEq

/-- The slice of the filesystem `transitionDraft` touches for one draft
filename: the file's presence/contents in `outbox/`, `sent/` and `failed/`. -/
structure OutboxDiskState where
  outboxFile : Option OutboxDraft
  sentFile : Option OutboxDraft
  failedFile : Option OutboxDraft
deriving Repr, DecidableEq

/-- Errors `transitionDraft` can raise: the `readFile` failure when the draft
is missing from `outbox/`, and `InvalidTransitionError(from, to)`. -/
inductive TransitionError where
  | fileNotFound : TransitionError
  | invalidTransition (fromStatus toStatus : String) : TransitionError
deriving Repr, DecidableEq

/-- `OUTBOX_TRANSITIONS` record from the shared constants: a string-keyed
record, so lookup of a key not present (e.g. `sent`, `failed`, or a bogus
status) yields `undefined` (`none`). -/
def OUTBOX_TRANSITIONS (status : String) : Option (List String) :=
  if status = "pending_review" then some ["ready_to_send"]
  else if status = "ready_to_send" then some ["sending"]
  else if status = "sending" then some ["sent", "failed"]
  else none

/-- `OUTBOX_STATUSES` from the shared constants. -/
def OUTBOX_STATUSES : List String :=
  ["pending_review", "ready_to_send", "sending", "sent", "failed"]

/-- JS object spread `{...base, ...extra}` on string-valued fields:
keys of `extra` override keys of `base`. -/
def mergeFields (base extra : List (String × String)) : List (String × String) :=
  base.filter (fun kv => ¬ extra.any (fun e => e.1 = kv.1)) ++ extra

/-- `transitionDraft(email, draftFilename, newStatus, extra)`: reads the draft
from `outbox/`, validates the transition against `OUTBOX_TRANSITIONS` (raising
`InvalidTransitionError` before any write when it is not allowed), then either
moves the draft to `sent/` (adding `sent_at`), moves it to `failed/` (adding
`failed_at`), or rewrites it in place.  The pair returned is the state of the
disk when the call finishes (or throws) together with the error, if any. -/
def transitionDraft (st : OutboxDiskState) (newStatus : String)
    (extra : List (String × String)) (now : String) :
    OutboxDiskState × Option TransitionError :=
  match st.outboxFile with
  | none => (st, some .fileNotFound)
  | some draft =>
    match OUTBOX_TRANSITIONS draft.status with
    | none => (st, some (.invalidTransition draft.status newStatus))
    | some allowed =>
      if newStatus ∈ allowed then
        let updated : OutboxDraft :=
          { status := newStatus, fields := mergeFields draft.fields extra }
        if newStatus = "sent" then
          ({ outboxFile := none,
             sentFile := some { updated with
               fields := mergeFields updated.fields [("sent_at", now)] },
             failedFile := st.failedFile }, none)
        else if newStatus = "failed" then
          ({ outboxFile := none,
             sentFile := st.sentFile,
             failedFile := some { updated with
               fields := mergeFields updated.fields [("failed_at", now)] } }, none)
        else
          ({ st with outboxFile := some updated }, none)
      else (st, some (.invalidTransition draft.status newStatus))

/-- The four allowed transitions of the outbox state machine. -/
def ALLOWED_TRANSITION_PAIRS : List (String × String) :=
  [("pending_review", "ready_to_send"), ("ready_to_send", "sending"),
   ("sending", "sent"), ("sending", "failed")]

/-- C1: for every draft on disk with status `S` and every requested status `T`
with `(S, T)` outside the four allowed transitions, `transitionDraft` raises
the invalid-transition error and the on-disk state is unchanged: the draft is
still in `outbox/` with the same contents. -/
theorem transitionDraft_invalid_unchanged
    (st : OutboxDiskState) (d : OutboxDraft) (T : String)
    (extra : List (String × String)) (now : String)
    (hd : st.outboxFile = some d)
    (h : (d.status, T) ∉ ALLOWED_TRANSITION_PAIRS) :
    transitionDraft st T extra now = (st, some (.invalidTransition d.status T)) := by
  simp only [ALLOWED_TRANSITION_PAIRS, List.mem_cons, List.not_mem_nil, or_false,
    Prod.mk.injEq, not_or] at h
  obtain ⟨h1, h2, h3, h4⟩ := h
  unfold transitionDraft
  rw [hd]
  unfold OUTBOX_TRANSITIONS
  by_cases hp : d.status = "pending_review"
  · simp only [hp, if_pos rfl]
    have hT : T ≠ "ready_to_send" := fun hc => h1 ⟨hp, hc⟩
    simp [hT]
  · by_cases hr : d.status = "ready_to_send"
    · simp only [hp, if_neg, hr, if_pos rfl]
      have hT : T ≠ "sending" := fun hc => h2 ⟨hr, hc⟩
      simp [hT, hp]
    · by_cases hs : d.status = "sending"
      · have hT1 : T ≠ "sent" := fun hc => h3 ⟨hs, hc⟩
        have hT2 : T ≠ "failed" := fun hc => h4 ⟨hs, hc⟩
        simp [hp, hr, hs, hT1, hT2]
      · simp [hp, hr, hs]

/-- Witness for C1: a `pending_review` draft cannot be moved directly to
`sent`; the disk state is returned unchanged alongside the error. -/
theorem transitionDraft_invalid_unchanged_witness :
    transitionDraft ⟨some ⟨"pending_review", []⟩, none, none⟩ "sent" [] "t0"
      = (⟨some ⟨"pending_review", []⟩, none, none⟩,
         some (.invalidTransition "pending_review" "sent")) :=
  transitionDraft_invalid_unchanged _ ⟨"pending_review", []⟩ "sent" [] "t0" rfl
    (by decide)

/- ───────────────────────── JSON values ─────────────────────────
   Drafts arrive as arbitrary parsed JSON (`unknown` in the source);
   we model the parsed values and the JS dynamic checks the validator uses. -/

/-- A parsed JSON value (draft numbers are integral in this program). -/
inductive JVal where
  | jnull : JVal
  | jbool (b : Bool) : JVal
  | jnum (n : Int) : JVal
  | jstr (s : String) : JVal
  | jarr (elems : List JVal) : JVal
  | jobj (fields : List (String × JVal)) : JVal

/-- JS truthiness of a JSON value (`undefined` is handled by `truthyOpt`). -/
def truthy : JVal → Bool
  | .jnull => false
  | .jbool b => b
  | .jnum n => n != 0
  | .jstr s => s != ""
  | .jarr _ => true
  | .jobj _ => true

/-- JS truthiness of a possibly-`undefined` property access. -/
def truthyOpt : Option JVal → Bool
  | none => false
  | some v => truthy v

/-- `typeof v === "object"`: true for `null`, arrays and objects in JS. -/
def jsTypeofObject : JVal → Bool
  | .jnull => true
  | .jarr _ => true
  | .jobj _ => true
  | _ => false

/-- Named property access `v[key]`: defined on objects, `undefined`
(`none`) on everything else (by the time the validator dereferences, the
value is an object or an array; named keys on an array are `undefined`). -/
def JVal.get : JVal → String → Option JVal
  | .jobj fields, key => (fields.find? (fun kv => kv.1 = key)).map Prod.snd
  | _, _ => none

/-- JS string coercion as used in template literals for error messages. -/
def jvalShow : JVal → String
  | .jnull => "null"
  | .jbool b => if b then "true" else "false"
  | .jnum n => toString n
  | .jstr s => s
  | .jarr l => String.intercalate "," (l.attach.map (fun x => jvalShow x.1))
  | .jobj _ => "[object Object]"
decreasing_by
  simp only [JVal.jarr.sizeOf_spec]
  have := List.sizeOf_lt_of_mem x.2
  omega

/-- JS strict equality `v === s` between a possibly-`undefined` value and a
string literal (also the body of `Array.includes` over a string list). -/
def optIsStr (v : Option JVal) (s : String) : Bool :=
  match v with
  | some (.jstr t) => t == s
  | _ => false

/- ───────────────────────── Outbox draft validator ─────────────────────────
   Source: `validateDraft` in the outbox validator module.  Each `errors.push`
   site is a named helper returning the (possibly empty) list of error strings
   that check contributes. -/

/-- Result record of `validateDraft`. -/
structure ValidationResult where
  valid : Bool
  errors : List String
deriving Repr, DecidableEq

/-- The `action` check: `!draft.action || !["reply","compose"].includes(...)`. -/
def actionErrors (action : Option JVal) : List String :=
  cond (!truthyOpt action || !(optIsStr action "reply" || optIsStr action "compose"))
    ["action must be \"reply\" or \"compose\""] []

/-- The `thread_id` check, performed only when `draft.action === "reply"`:
`!draft.thread_id || typeof draft.thread_id !== "string"`. -/
def threadIdErrors (action tid : Option JVal) : List String :=
  cond (optIsStr action "reply")
    (match tid with
     | some (.jstr t) => cond (t == "") ["thread_id is required for replies"] []
     | _ => ["thread_id is required for replies"])
    []

/-- JS `String.prototype.includes` specialised to a single character. -/
def jsIncludesChar (s : String) (c : Char) : Bool :=
  s.data.contains c

/-- The per-element check of the `to` loop: a non-string element or a string
without `@` pushes an error. -/
def checkToAddr (addr : JVal) : List String :=
  match addr with
  | .jstr s => cond (jsIncludesChar s '@') [] ["Invalid email address in to: " ++ s]
  | v => ["Invalid email address in to: " ++ jvalShow v]

/-- The `to` check: a non-array or empty array is one error; otherwise each
element is checked in order. -/
def toErrors (toVal : Option JVal) : List String :=
  match toVal with
  | some (.jarr elems) =>
    cond (elems.length == 0) ["to must be a non-empty array of email addresses"]
      (elems.foldr (fun a acc => checkToAddr a ++ acc) [])
  | _ => ["to must be a non-empty array of email addresses"]

/-- The `subject`/`body` checks: `!v || typeof v !== "string"`. -/
def nonEmptyStringErrors (v : Option JVal) (msg : String) : List String :=
  match v with
  | some (.jstr s) => cond (s == "") [msg] []
  | _ => [msg]

/-- The `status` check: performed only when `draft.status` is truthy. -/
def statusErrors (status : Option JVal) : List String :=
  cond (truthyOpt status && !(OUTBOX_STATUSES.any (fun s => optIsStr status s)))
    ["Invalid status: " ++ (match status with | some v => jvalShow v | none => "undefined")
      ++ ". Must be one of: " ++ String.intercalate ", " OUTBOX_STATUSES]
    []

/-- `validateDraft(data)`: the object-shape guard followed by the field checks,
accumulating error strings in source order; `valid` is `errors.length === 0`. -/
def validateDraft (data : JVal) : ValidationResult :=
  cond (!truthy data || !jsTypeofObject data)
    { valid := false, errors := ["Draft must be a JSON object"] }
    (let errors :=
      actionErrors (data.get "action")
        ++ threadIdErrors (data.get "action") (data.get "thread_id")
        ++ toErrors (data.get "to")
        ++ nonEmptyStringErrors (data.get "subject") "subject is required"
        ++ nonEmptyStringErrors (data.get "body") "body is required"
        ++ statusErrors (data.get "status")
     { valid := errors.length == 0, errors := errors })

/-- A draft with valid `action`, `to`, `subject`, `body` but no `status` field. -/
def draftWithoutStatus : JVal :=
  .jobj [("action", .jstr "compose"), ("to", .jarr [.jstr "a@b.com"]),
         ("subject", .jstr "Hi"), ("body", .jstr "Hello")]

/-- Counterexample to C6: the validator accepts a draft whose `status` is not
one of the five allowed statuses — the `status` field is simply missing, and
the `draft.status && …` guard skips the check entirely. -/
theorem validateDraft_accepts_missing_status :
    (validateDraft draftWithoutStatus).valid = true ∧
    draftWithoutStatus.get "status" = none := by
  constructor
  · rfl
  · rfl

/-- Acceptance predicate written from the amended spec: as C6 states it,
except that `status` is only constrained when the field is present and
truthy. -/
def specAcceptsDraft (data : JVal) : Bool :=
  truthy data && jsTypeofObject data &&
  (optIsStr (data.get "action") "reply" || optIsStr (data.get "action") "compose") &&
  (!(optIsStr (data.get "action") "reply") ||
   (match data.get "thread_id" with
    | some (.jstr t) => t != ""
    | _ => false)) &&
  (match data.get "to" with
   | some (.jarr elems) =>
     !elems.isEmpty && elems.all (fun a =>
       match a with
       | .jstr s => jsIncludesChar s '@'
       | _ => false)
   | _ => false) &&
  (match data.get "subject" with
   | some (.jstr s) => s != ""
   | _ => false) &&
  (match data.get "body" with
   | some (.jstr s) => s != ""
   | _ => false) &&
  (!truthyOpt (data.get "status") ||
   OUTBOX_STATUSES.any (fun s => optIsStr (data.get "status") s))

theorem optIsStr_truthyOpt (v : Option JVal) (s : String)
    (hs : s ≠ "") (h : optIsStr v s = true) : truthyOpt v = true := by
  match v with
  | none => simp [optIsStr] at h
  | some .jnull => simp [optIsStr] at h
  | some (.jbool b) => simp [optIsStr] at h
  | some (.jnum n) => simp [optIsStr] at h
  | some (.jarr l) => simp [optIsStr] at h
  | some (.jobj f) => simp [optIsStr] at h
  | some (.jstr t) =>
    simp only [optIsStr, beq_iff_eq] at h
    subst h
    simpa [truthyOpt, truthy] using hs

theorem actionErrors_eq_nil (a : Option JVal) :
    actionErrors a = [] ↔
      (optIsStr a "reply" || optIsStr a "compose") = true := by
  unfold actionErrors
  cases h2 : (optIsStr a "reply" || optIsStr a "compose")
  · simp [h2]
  · have h2' : optIsStr a "reply" = true ∨ optIsStr a "compose" = true := by
      simpa using h2
    have ht : truthyOpt a = true := by
      rcases h2' with h | h
      · exact optIsStr_truthyOpt _ _ (by simp) h
      · exact optIsStr_truthyOpt _ _ (by simp) h
    simp [h2, ht]

theorem threadIdErrors_eq_nil (a tid : Option JVal) :
    threadIdErrors a tid = [] ↔
      (!(optIsStr a "reply") ||
        (match tid with
         | some (.jstr t) => t != ""
         | _ => false)) = true := by
  unfold threadIdErrors
  cases hr : optIsStr a "reply"
  · simp
  · simp only [cond_true, Bool.not_true, Bool.false_or]
    match tid with
    | none => simp
    | some .jnull => simp
    | some (.jbool b) => simp
    | some (.jnum n) => simp
    | some (.jarr l) => simp
    | some (.jobj f) => simp
    | some (.jstr t) =>
      cases he : (t == "")
      · simp [bne, he]
      · simp [bne, he]

theorem checkToAddr_eq_nil (a : JVal) :
    checkToAddr a = [] ↔
      (match a with
       | .jstr s => jsIncludesChar s '@'
       | _ => false) = true := by
  match a with
  | .jnull => simp [checkToAddr]
  | .jbool b => simp [checkToAddr]
  | .jnum n => simp [checkToAddr]
  | .jarr l => simp [checkToAddr]
  | .jobj f => simp [checkToAddr]
  | .jstr s =>
    cases hc : jsIncludesChar s '@'
    · simp [checkToAddr, hc]
    · simp [checkToAddr, hc]

theorem foldr_checkToAddr_empty (elems : List JVal) :
    (elems.foldr (fun a acc => checkToAddr a ++ acc) [] = []) ↔
    (∀ a ∈ elems, checkToAddr a = []) := by
  induction elems with
  | nil => simp
  | cons x xs ih =>
    simp only [List.foldr_cons, List.append_eq_nil, List.mem_cons]
    constructor
    · rintro ⟨h1, h2⟩ a ha
      rcases ha with rfl | ha
      · exact h1
      · exact (ih.mp h2) a ha
    · intro h
      exact ⟨h x (Or.inl rfl), ih.mpr (fun a ha => h a (Or.inr ha))⟩

theorem toErrors_eq_nil (toVal : Option JVal) :
    toErrors toVal = [] ↔
      (match toVal with
       | some (.jarr elems) =>
         !elems.isEmpty && elems.all (fun a =>
           match a with
           | .jstr s => jsIncludesChar s '@'
           | _ => false)
       | _ => false) = true := by
  unfold toErrors
  match toVal with
  | none => simp
  | some .jnull => simp
  | some (.jbool b) => simp
  | some (.jnum n) => simp
  | some (.jstr s) => simp
  | some (.jobj f) => simp
  | some (.jarr elems) =>
    cases hl : (elems.length == 0)
    · simp only [hl, cond_false, foldr_checkToAddr_empty, Bool.and_eq_true,
        List.all_eq_true, Bool.not_eq_true']
      constructor
      · intro h
        refine ⟨?_, fun a ha => (checkToAddr_eq_nil a).mp (h a ha)⟩
        rcases elems with _ | ⟨x, xs⟩
        · simp at hl
        · rfl
      · rintro ⟨-, h⟩ a ha
        exact (checkToAddr_eq_nil a).mpr (h a ha)
    · have : elems = [] := by
        rcases elems with _ | ⟨x, xs⟩
        · rfl
        · simp at hl
      subst this
      simp

theorem nonEmptyStringErrors_eq_nil (v : Option JVal) (msg : String) :
    nonEmptyStringErrors v msg = [] ↔
      (match v with
       | some (.jstr s) => s != ""
       | _ => false) = true := by
  unfold nonEmptyStringErrors
  match v with
  | none => simp
  | some .jnull => simp
  | some (.jbool b) => simp
  | some (.jnum n) => simp
  | some (.jarr l) => simp
  | some (.jobj f) => simp
  | some (.jstr s) =>
    cases he : (s == "")
    · simp [bne, he]
    · simp [bne, he]

theorem statusErrors_eq_nil (status : Option JVal) :
    statusErrors status = [] ↔
      (!truthyOpt status ||
        OUTBOX_STATUSES.any (fun s => optIsStr status s)) = true := by
  unfold statusErrors
  cases ht : truthyOpt status
  · simp [ht]
  · cases ha : OUTBOX_STATUSES.any (fun s => optIsStr status s)
    · simp [ht, ha]
    · simp [ht, ha]

/-- C6 (amended): `validateDraft` accepts exactly the objects with
`action ∈ {reply, compose}`, a non-empty string `thread_id` when the action
is `reply`, a non-empty `to` array of `@`-containing strings, non-empty
string `subject` and `body`, and — only when the `status` field is present
and truthy — a `status` among the five allowed statuses. -/
theorem validateDraft_valid_iff (data : JVal) :
    (validateDraft data).valid = specAcceptsDraft data := by
  rw [Bool.eq_iff_iff]
  unfold validateDraft specAcceptsDraft
  cases ht : truthy data
  · simp [ht]
  · cases hj : jsTypeofObject data
    · simp [hj]
    · simp only [ht, hj, Bool.not_true, Bool.or_self, cond_false, Bool.true_and,
        beq_iff_eq, List.length_append, Nat.add_eq_zero, List.length_eq_zero,
        Bool.and_eq_true, Bool.or_eq_true]
      rw [actionErrors_eq_nil, threadIdErrors_eq_nil, toErrors_eq_nil,
        nonEmptyStringErrors_eq_nil, nonEmptyStringErrors_eq_nil, statusErrors_eq_nil]
      simp only [Bool.or_eq_true]
      try tauto

/- ───────────────────────── YAML frontmatter rendering ─────────────────────────
   Source: `yamlSafeValue` and `renderMessageMd` in the thread-writer variant
   that quotes the from/from_name/to/cc fields. -/

/-- The character class of the `yamlSafeValue` regex test. -/
def YAML_SPECIAL_CHARS : List Char :=
  [':', '#', '[', ']', '\x7b', '\x7d', '|', '>', '&', '*', '!', '\'']

/-- The quoting trigger of `yamlSafeValue`: the regex test, a leading `-`,
or a leading space. -/
def yamlNeedsQuoting (value : String) : Bool :=
  value.data.any (fun c => YAML_SPECIAL_CHARS.contains c) ||
  (match value.data with
   | c :: _ => c == '-' || c == ' '
   | [] => false)

/-- The escapes applied inside the quotes: backslash then double quote. -/
def yamlEscape (value : String) : String :=
  ⟨(value.data.flatMap (fun c => if c = '\\' then ['\\', '\\'] else [c])).flatMap
     (fun c => if c = '"' then ['\\', '"'] else [c])⟩

/-- `yamlSafeValue`: wrap in double quotes (escaping `\` and `"`) when the
value contains a YAML-special character or starts with `-` or a space;
otherwise emit the value bare. -/
def yamlSafeValue (value : String) : String :=
  cond (yamlNeedsQuoting value) ("\"" ++ yamlEscape value ++ "\"") value

/-- Message frontmatter record (`from` and `to` of the source are `fromAddr`
and `toLine` here because both are Lean keywords/tokens). -/
structure MessageFrontmatter where
  id : String
  gmail_message_id : String
  thread_id : String
  rfc822_message_id : Option String
  in_reply_to : Option String
  references : List String
  fromAddr : String
  from_name : String
  toLine : String
  cc : Option String
  date : String
  uid : Option Nat

/-- `JSON.stringify` of a string array (only `\` and `"` need escaping in
the strings this program produces). -/
def jsonStringifyStrList (l : List String) : String :=
  "[" ++ String.intercalate "," (l.map (fun s => "\"" ++ yamlEscape s ++ "\"")) ++ "]"

/-- The `lines` array built by `renderMessageMd` up to (not including) the
closing `---`: the opening delimiter and the frontmatter key/value lines
(optional fields are emitted only when truthy). -/
def frontmatterLines (fm : MessageFrontmatter) : List String :=
  ["---"]
    ++ ["id: " ++ fm.id]
    ++ ["gmail_message_id: " ++ fm.gmail_message_id]
    ++ ["thread_id: " ++ fm.thread_id]
    ++ (match fm.rfc822_message_id with
        | some r => if r ≠ "" then ["rfc822_message_id: \"" ++ r ++ "\""] else []
        | none => [])
    ++ (match fm.in_reply_to with
        | some r => if r ≠ "" then ["in_reply_to: \"" ++ r ++ "\""] else []
        | none => [])
    ++ (if fm.references.length > 0 then
          ["references: " ++ jsonStringifyStrList fm.references] else [])
    ++ ["from: " ++ yamlSafeValue fm.fromAddr]
    ++ ["from_name: " ++ yamlSafeValue fm.from_name]
    ++ ["to: " ++ yamlSafeValue fm.toLine]
    ++ (match fm.cc with
        | some c => if c ≠ "" then ["cc: " ++ yamlSafeValue c] else []
        | none => [])
    ++ ["date: " ++ fm.date]
    ++ (match fm.uid with
        | some u => ["uid: " ++ toString u]
        | none => [])

/-- `renderMessageMd(fm, body)`: frontmatter lines, closing `---`, a blank
line, the body, and a trailing newline, joined with `\n`. -/
def renderMessageMd (fm : MessageFrontmatter) (body : String) : String :=
  String.intercalate "\n" (frontmatterLines fm ++ ["---", "", body, ""])

theorem length_le_flatMap (f : Char → List Char) (h : ∀ c, 1 ≤ (f c).length)
    (l : List Char) : l.length ≤ (l.flatMap f).length := by
  induction l with
  | nil => simp
  | cons c cs ih =>
    simp only [List.flatMap_cons, List.length_cons, List.length_append]
    have := h c
    omega

theorem length_le_yamlEscape (v : String) : v.length ≤ (yamlEscape v).length := by
  unfold yamlEscape
  show v.data.length ≤ _
  have h1 : ∀ c : Char, 1 ≤ (if c = '\\' then ['\\', '\\'] else [c]).length := by
    intro c; split <;> simp
  have h2 : ∀ c : Char, 1 ≤ (if c = '"' then ['\\', '"'] else [c]).length := by
    intro c; split <;> simp
  calc v.data.length
      ≤ (v.data.flatMap (fun c => if c = '\\' then ['\\', '\\'] else [c])).length :=
        length_le_flatMap _ h1 _
    _ ≤ _ := length_le_flatMap _ h2 _

/-- A frontmatter whose `from_name` contains a double quote but none of the
quoting triggers of `yamlSafeValue`. -/
def bareQuoteFrontmatter : MessageFrontmatter :=
  { id := "m1", gmail_message_id := "m1", thread_id := "t1",
    rfc822_message_id := none, in_reply_to := none, references := [],
    fromAddr := "alice@example.com", from_name := "Alice \"Al\" Smith",
    toLine := "bob@example.com", cc := none, date := "2026-02-17T09:30:00Z",
    uid := none }

/-- C10: `yamlSafeValue` quotes exactly when the value contains one of
the YAML-special characters or starts with `-` or a space; consequently a
`from_name` containing a double quote (but no trigger) is emitted bare and
unescaped in the rendered frontmatter. -/
theorem yamlSafeValue_quoting_characterization :
    (∀ v : String, yamlSafeValue v = v ↔ yamlNeedsQuoting v = false) ∧
    (jsIncludesChar bareQuoteFrontmatter.from_name '"' = true ∧
     ("from_name: " ++ bareQuoteFrontmatter.from_name)
        ∈ frontmatterLines bareQuoteFrontmatter) := by
  refine ⟨fun v => ?_, by decide, by decide⟩
  unfold yamlSafeValue
  cases hq : yamlNeedsQuoting v
  · simp
  · simp only [cond_true]
    constructor
    · intro h
      have hle : v.length ≤ (yamlEscape v).length := length_le_yamlEscape v
      have hlen := congrArg String.length h
      rw [String.length_append, String.length_append] at hlen
      have hq1 : ("\"" : String).length = 1 := rfl
      rw [hq1] at hlen
      omega
    · intro h
      simp at h

/- ───────────────────────── Digits and ISO dates ─────────────────────────
   Shared infrastructure: decimal digits, and `new Date(s).getTime()` for the
   ISO-8601 strings this program produces (UTC, date-only or with time). -/

/-- `[0-9]` test. -/
def isDigitChar (c : Char) : Bool := '0' ≤ c && c ≤ '9'

/-- Value of a decimal digit character. -/
def digitVal (c : Char) : Nat := c.toNat - 48

/-- Read exactly `n` decimal digits, most significant first, accumulating
into `acc`; returns the value and the remaining characters. -/
def parseDigitsAux : Nat → Nat → List Char → Option (Nat × List Char)
  | 0, acc, cs => some (acc, cs)
  | _ + 1, _, [] => none
  | n + 1, acc, c :: cs =>
    if isDigitChar c then parseDigitsAux n (acc * 10 + digitVal c) cs else none

/-- Read exactly `n` decimal digits. -/
def parseNDigits (n : Nat) (cs : List Char) : Option (Nat × List Char) :=
  parseDigitsAux n 0 cs

/-- Expect one specific character. -/
def expectChar (c : Char) : List Char → Option (List Char)
  | x :: rest => if x = c then some rest else none
  | [] => none

/-- Days since the Unix epoch of a proleptic-Gregorian civil date
(the standard days-from-civil algorithm, here for years ≥ 1). -/
def daysFromCivil (y m d : Nat) : Int :=
  let yAdj := if m ≤ 2 then y - 1 else y
  let era := yAdj / 400
  let yoe := yAdj - era * 400
  let mp := if m > 2 then m - 3 else m + 9
  let doy := (153 * mp + 2) / 5 + d - 1
  let doe := yoe * 365 + yoe / 4 + doy - yoe / 100
  (era * 146097 + doe : Int) - 719468

/-- `new Date(s).getTime()` (milliseconds since the epoch, UTC) for the ISO
strings this program stores in `last_date`: `YYYY-MM-DD`, or
`YYYY-MM-DDTHH:MM:SSZ` with optional milliseconds; `none` is `NaN`. -/
def parseIsoMs (s : String) : Option Int := do
  let (y, r1) ← parseNDigits 4 s.data
  let r2 ← expectChar '-' r1
  let (mo, r3) ← parseNDigits 2 r2
  let r4 ← expectChar '-' r3
  let (d, r5) ← parseNDigits 2 r4
  match r5 with
  | [] => pure (86400000 * daysFromCivil y mo d)
  | 'T' :: r6 => do
    let (h, r7) ← parseNDigits 2 r6
    let r8 ← expectChar ':' r7
    let (mi, r9) ← parseNDigits 2 r8
    let r10 ← expectChar ':' r9
    let (se, r11) ← parseNDigits 2 r10
    let (ms, r12) ← match r11 with
      | '.' :: r => parseNDigits 3 r
      | r => pure (0, r)
    match r12 with
    | ['Z'] =>
      pure (86400000 * daysFromCivil y mo d +
            ((3600000 * h + 60000 * mi + 1000 * se + ms : Nat) : Int))
    | _ => none
  | _ => none

/- ───────────────────────── Threads JSONL index ─────────────────────────
   Source: `upsertJsonl` (shared jsonl module) and `upsertThreadIndex`
   (index writer): upsert by `id`, then re-sort newest-first by `last_date`
   with the stable `Array.prototype.sort` comparator
   `new Date(b.last_date).getTime() - new Date(a.last_date).getTime()`. -/

/-- A threads-index entry; `snippet` stands for the remaining denormalized
fields, which the upsert and sort never inspect. -/
structure ThreadIndexEntry where
  id : String
  last_date : String
  snippet : String
deriving Repr, DecidableEq

/-- `upsertJsonl(path, item, "id")`: replace the first entry whose key equals
the new item's key, else append. -/
def upsertJsonl (items : List ThreadIndexEntry) (item : ThreadIndexEntry) :
    List ThreadIndexEntry :=
  match items.findIdx? (fun existing => existing.id == item.id) with
  | some idx => items.set idx item
  | none => items ++ [item]

/-- The sort key: `new Date(e.last_date).getTime()` (`NaN` modelled as 0;
the program only writes parseable ISO dates). -/
def lastDateMs (e : ThreadIndexEntry) : Int := (parseIsoMs e.last_date).getD 0

/-- The descending comparator of `upsertThreadIndex` as an ordering relation:
`a` may precede `b` when `b`'s date is not newer. -/
def threadDateGE (a b : ThreadIndexEntry) : Prop := lastDateMs b ≤ lastDateMs a

instance : DecidableRel threadDateGE := fun a b => by
  unfold threadDateGE; infer_instance

instance : IsTotal ThreadIndexEntry threadDateGE :=
  ⟨fun a b => Int.le_total (lastDateMs b) (lastDateMs a)⟩

instance : IsTrans ThreadIndexEntry threadDateGE :=
  ⟨fun _ _ _ hab hbc => le_trans hbc hab⟩

/-- `upsertThreadIndex(email, entry)`: upsert into the read index, then
re-sort newest-first (a stable sort, as `Array.prototype.sort` is). -/
def upsertThreadIndex (items : List ThreadIndexEntry) (entry : ThreadIndexEntry) :
    List ThreadIndexEntry :=
  List.insertionSort threadDateGE (upsertJsonl items entry)

theorem map_id_set_of_findIdx :
    ∀ (items : List ThreadIndexEntry) (idx : Nat) (item : ThreadIndexEntry),
    items.findIdx? (fun e => e.id == item.id) = some idx →
    (items.set idx item).map ThreadIndexEntry.id = items.map ThreadIndexEntry.id ∧
    item.id ∈ items.map ThreadIndexEntry.id := by
  intro items
  induction items with
  | nil => intro idx item h; simp [List.findIdx?] at h
  | cons x xs ih =>
    intro idx item h
    rw [List.findIdx?_cons] at h
    by_cases hx : (x.id == item.id) = true
    · rw [if_pos hx] at h
      injection h with h
      subst h
      have hid : x.id = item.id := by simpa using hx
      simp [List.set, hid]
    · rw [if_neg hx, List.findIdx?_succ] at h
      rcases Option.map_eq_some'.mp h with ⟨j, hj, rfl⟩
      obtain ⟨h1, h2⟩ := ih j item hj
      refine ⟨?_, by simp [h2]⟩
      simp [List.set, h1]

theorem upsertJsonl_map_id (items : List ThreadIndexEntry) (item : ThreadIndexEntry) :
    ((upsertJsonl items item).map ThreadIndexEntry.id = items.map ThreadIndexEntry.id
       ∧ item.id ∈ items.map ThreadIndexEntry.id)
    ∨ ((upsertJsonl items item).map ThreadIndexEntry.id
         = items.map ThreadIndexEntry.id ++ [item.id]
       ∧ item.id ∉ items.map ThreadIndexEntry.id) := by
  unfold upsertJsonl
  cases hf : items.findIdx? (fun e => e.id == item.id) with
  | none =>
    right
    refine ⟨by simp, ?_⟩
    have hall := List.findIdx?_eq_none_iff.mp hf
    intro hmem
    rw [List.mem_map] at hmem
    obtain ⟨e, he, heq⟩ := hmem
    have := hall e he
    rw [heq] at this
    simp at this
  | some idx =>
    left
    exact map_id_set_of_findIdx items idx item hf

/-- C3: upserting an entry into a threads index with pairwise-distinct ids
leaves exactly one entry per id (the ids stay distinct, every previous id
survives, and the upserted id is present) and the rewritten index is ordered
by `last_date` descending. -/
theorem upsertThreadIndex_unique_sorted
    (items : List ThreadIndexEntry) (entry : ThreadIndexEntry)
    (hids : (items.map ThreadIndexEntry.id).Nodup) :
    ((upsertThreadIndex items entry).map ThreadIndexEntry.id).Nodup ∧
    entry.id ∈ (upsertThreadIndex items entry).map ThreadIndexEntry.id ∧
    (∀ i ∈ items.map ThreadIndexEntry.id,
       i ∈ (upsertThreadIndex items entry).map ThreadIndexEntry.id) ∧
    (upsertThreadIndex items entry).Pairwise threadDateGE := by
  have hperm : List.Perm (upsertThreadIndex items entry) (upsertJsonl items entry) :=
    List.perm_insertionSort threadDateGE (upsertJsonl items entry)
  have hpermMap : List.Perm ((upsertThreadIndex items entry).map ThreadIndexEntry.id)
      ((upsertJsonl items entry).map ThreadIndexEntry.id) :=
    hperm.map ThreadIndexEntry.id
  have sorted : (upsertThreadIndex items entry).Pairwise threadDateGE :=
    List.sorted_insertionSort threadDateGE (upsertJsonl items entry)
  rcases upsertJsonl_map_id items entry with ⟨heq, hmem⟩ | ⟨heq, hmem⟩
  · refine ⟨?_, ?_, ?_, sorted⟩
    · exact hpermMap.nodup_iff.mpr (heq ▸ hids)
    · exact hpermMap.mem_iff.mpr (heq ▸ hmem)
    · intro i hi
      exact hpermMap.mem_iff.mpr (heq ▸ hi)
  · refine ⟨?_, ?_, ?_, sorted⟩
    · refine hpermMap.nodup_iff.mpr ?_
      rw [heq, List.nodup_append]
      refine ⟨hids, List.nodup_singleton _, fun i hi hmem2 => ?_⟩
      rw [List.mem_singleton] at hmem2
      exact hmem (hmem2 ▸ hi)
    · refine hpermMap.mem_iff.mpr ?_
      rw [heq]; simp
    · intro i hi
      refine hpermMap.mem_iff.mpr ?_
      rw [heq]; simp [hi]

/-- Witness for C3, the spec's own example: entries dated 2026-02-10 and
2026-02-20 on disk, upserting one dated 2026-02-15 produces on-disk order
2026-02-20, 2026-02-15, 2026-02-10. -/
theorem upsertThreadIndex_unique_sorted_witness :
    (([⟨"t1", "2026-02-10", "s1"⟩, ⟨"t2", "2026-02-20", "s2"⟩]
        : List ThreadIndexEntry).map ThreadIndexEntry.id).Nodup ∧
    ((upsertThreadIndex [⟨"t1", "2026-02-10", "s1"⟩, ⟨"t2", "2026-02-20", "s2"⟩]
        ⟨"t3", "2026-02-15", "s3"⟩).map ThreadIndexEntry.id).Nodup ∧
    (upsertThreadIndex [⟨"t1", "2026-02-10", "s1"⟩, ⟨"t2", "2026-02-20", "s2"⟩]
        ⟨"t3", "2026-02-15", "s3"⟩).map ThreadIndexEntry.last_date
      = ["2026-02-20", "2026-02-15", "2026-02-10"] :=
  ⟨by decide,
   (upsertThreadIndex_unique_sorted
      [⟨"t1", "2026-02-10", "s1"⟩, ⟨"t2", "2026-02-20", "s2"⟩]
      ⟨"t3", "2026-02-15", "s3"⟩ (by decide)).1,
   by decide⟩

/- ───────────────────────── Noise normalizer (tracking params) ─────────────────────────
   Source: `normalizeNoise` / `stripUtmParams` in the packages cleaning
   module.  `stripUtmParams` is modelled on the parsed query-parameter list
   of one URL (`new URL(url).searchParams`, in order); the `normalizeNoise`
   body-replacement step applies it to every URL matched in the body. -/

/-- Query parameters of one URL, in order, as (name, value) pairs. -/
abbrev UrlParams := List (String × String)

/-- `key.startsWith("utm_")` — the only tracking-parameter test in the
packages variant of the noise normalizer. -/
def startsWithUtm (k : String) : Bool :=
  ['u', 't', 'm', '_'].isPrefixOf k.data

/-- `stripUtmParams(url)`: the first loop collects every parameter name
starting with `utm_` into `keysToDelete`; the second loop deletes every
pair carrying one of those names (`searchParams.delete` removes all pairs
with the name). -/
def stripUtmParams (params : UrlParams) : UrlParams :=
  let keysToDelete := (params.map Prod.fst).filter startsWithUtm
  params.filter (fun kv => !(keysToDelete.contains kv.1))

/-- The URL-rewriting step of `normalizeNoise`: each URL occurring in the
body has its query parameters rewritten by `stripUtmParams`. -/
def normalizeNoiseUrlParams (urls : List UrlParams) : List UrlParams :=
  urls.map stripUtmParams

/-- Counterexample to C8: a `correlation_id` parameter survives
`stripUtmParams` untouched (only `utm_*` names are deleted), here shown next
to a `utm_source` parameter that is deleted. -/
theorem stripUtmParams_keeps_correlation_id :
    stripUtmParams [("correlation_id", "abc"), ("utm_source", "news")]
      = [("correlation_id", "abc")] := by decide

theorem stripUtmParams_eq_filter (params : UrlParams) :
    stripUtmParams params = params.filter (fun kv => !startsWithUtm kv.1) := by
  unfold stripUtmParams
  apply List.filter_congr
  intro kv hkv
  cases hs : startsWithUtm kv.1
  · have hc : (List.filter startsWithUtm (params.map Prod.fst)).contains kv.1 = false := by
      rw [List.contains_eq_any_beq]
      rw [List.any_eq_false]
      intro k hk
      rw [List.mem_filter] at hk
      intro hbeq
      rw [beq_iff_eq] at hbeq
      rw [← hbeq] at hk
      exact absurd hk.2 (by simp [hs])
    rw [hc]
  · have hc : (List.filter startsWithUtm (params.map Prod.fst)).contains kv.1 = true := by
      rw [List.contains_eq_any_beq, List.any_eq_true]
      refine ⟨kv.1, ?_, by simp⟩
      rw [List.mem_filter]
      exact ⟨List.mem_map_of_mem Prod.fst hkv, hs⟩
    rw [hc]

/-- C8 (amended): the packages `normalizeNoise` removes, from every URL in
the body, exactly the query parameters whose name starts with `utm_`; all
other parameters — including `correlation_id`, `ref_campaign`, `ref_source`,
`token`, `auto_token`, `ct` and `ec` — are left intact, in order. -/
theorem normalizeNoise_strips_exactly_utm (urls : List UrlParams) :
    normalizeNoiseUrlParams urls
      = urls.map (fun ps => ps.filter (fun kv => !startsWithUtm kv.1)) := by
  unfold normalizeNoiseUrlParams
  exact List.map_congr_left (fun ps _ => stripUtmParams_eq_filter ps)
/- ───────────────────────── Message filenames ─────────────────────────
   Source: `messageFilename` / `parseMessageFilename` / `toIsoBasic` / `pad2`
   in the shared message-filename module.  A JS `Date` restricted to whole
   seconds is the tuple of its UTC components (`getUTCFullYear`,
   `getUTCMonth()+1`, `getUTCDate`, `getUTCHours`, `getUTCMinutes`,
   `getUTCSeconds`); the regex is embedded as the equivalent deterministic
   parser (`$` in JS is strict end-of-input, `.` excludes line terminators). -/

/-- `'0' + n` for a digit value `n < 10`. -/
def digitChar (n : Nat) : Char := Char.ofNat (48 + n)

/-- Decimal rendering of a natural (`Number.prototype.toString()`),
structurally recursive on a fuel bound. -/
def natToDigitsAux : Nat → Nat → List Char → List Char
  | 0, _, acc => acc
  | fuel + 1, n, acc =>
    if n < 10 then digitChar n :: acc
    else natToDigitsAux fuel (n / 10) (digitChar (n % 10) :: acc)

/-- Decimal rendering of a natural number. -/
def natToDigits (n : Nat) : List Char := natToDigitsAux (n + 1) n []

/-- `n.toString().padStart(2, "0")`. -/
def pad2 (n : Nat) : List Char :=
  let s := natToDigits n
  if s.length < 2 then '0' :: s else s

/-- A JS `Date` with whole seconds, as its UTC calendar components
(month is `getUTCMonth() + 1`, i.e. 1-based). -/
structure UtcDate where
  year : Nat
  month : Nat
  day : Nat
  hour : Nat
  minute : Nat
  second : Nat
deriving Repr, DecidableEq

/-- The dates representable by the filename format: a four-digit year and the
component ranges every real `Date` satisfies. -/
def WellFormedUtcDate (d : UtcDate) : Prop :=
  1000 ≤ d.year ∧ d.year ≤ 9999 ∧ 1 ≤ d.month ∧ d.month ≤ 12 ∧
  1 ≤ d.day ∧ d.day ≤ 31 ∧ d.hour ≤ 23 ∧ d.minute ≤ 59 ∧ d.second ≤ 59

instance (d : UtcDate) : Decidable (WellFormedUtcDate d) := by
  unfold WellFormedUtcDate; infer_instance

/-- `toIsoBasic(date)`: `YYYYMMDDTHHmmssZ`. -/
def toIsoBasic (d : UtcDate) : List Char :=
  natToDigits d.year ++ pad2 d.month ++ pad2 d.day ++ ['T']
    ++ pad2 d.hour ++ pad2 d.minute ++ pad2 d.second ++ ['Z']

/-- `messageFilename(date, gmailMessageId)`: `<iso-basic>__msg<id>.md`. -/
def messageFilename (date : UtcDate) (gmailMessageId : String) : String :=
  ⟨toIsoBasic date ++ "__msg".data ++ gmailMessageId.data ++ ".md".data⟩

/-- Whether a JS regex `.` (no `s` flag) matches a character: everything but
the four line terminators. -/
def jsDotMatches (c : Char) : Bool :=
  !(c == '\n' || c == '\r' || c == '\u2028' || c == '\u2029')

/-- Expect a literal prefix. -/
def expectPrefix : List Char → List Char → Option (List Char)
  | [], cs => some cs
  | p :: ps, c :: cs => if c = p then expectPrefix ps cs else none
  | _ :: _, [] => none

/-- `parseMessageFilename(filename)`: the anchored regex
`^(\d{4})(\d{2})(\d{2})T(\d{2})(\d{2})(\d{2})Z__msg(.+)\.md$` as a
deterministic parser — the greedy `(.+)` before the anchored literal `\.md$`
captures everything up to the final `.md`, provided that capture is
non-empty and contains no line terminator; the captured numbers are the
date components handed to the `Date` constructor. -/
def parseMessageFilename (filename : String) : Option (UtcDate × String) := do
  let (y, r1) ← parseNDigits 4 filename.data
  let (mo, r2) ← parseNDigits 2 r1
  let (d, r3) ← parseNDigits 2 r2
  let r4 ← expectChar 'T' r3
  let (h, r5) ← parseNDigits 2 r4
  let (mi, r6) ← parseNDigits 2 r5
  let (se, r7) ← parseNDigits 2 r6
  let r8 ← expectChar 'Z' r7
  let r9 ← expectPrefix "__msg".data r8
  match r9.reverse with
  | 'd' :: 'm' :: '.' :: revId =>
    if revId ≠ [] ∧ revId.all jsDotMatches then
      some (⟨y, mo, d, h, mi, se⟩, ⟨revId.reverse⟩)
    else none
  | _ => none

/-- Counterexample to C4: a message id containing a newline is a non-empty
string, but JS `.` does not match line terminators, so the regex fails and
the round-trip returns `none` instead of the original pair. -/
theorem parseMessageFilename_newline_id_fails :
    parseMessageFilename (messageFilename ⟨2026, 2, 17, 9, 30, 0⟩ "a\nb") = none ∧
    "a\nb" ≠ "" := by
  constructor
  · rfl
  · decide

theorem digitChar_spec (k : Nat) (hk : k < 10) :
    isDigitChar (digitChar k) = true ∧ digitVal (digitChar k) = k := by
  interval_cases k <;> exact ⟨by decide, by decide⟩

theorem parseDigitsAux_digitChar (m k acc : Nat) (hk : k < 10) (rest : List Char) :
    parseDigitsAux (m + 1) acc (digitChar k :: rest)
      = parseDigitsAux m (acc * 10 + k) rest := by
  obtain ⟨h1, h2⟩ := digitChar_spec k hk
  simp [parseDigitsAux, h1, h2]

theorem natToDigitsAux_lt10 (fuel n : Nat) (acc : List Char) (h : n < 10) :
    natToDigitsAux (fuel + 1) n acc = digitChar n :: acc := by
  simp [natToDigitsAux, h]

theorem natToDigitsAux_step (fuel n : Nat) (acc : List Char) (h : ¬ n < 10) :
    natToDigitsAux (fuel + 1) n acc
      = natToDigitsAux fuel (n / 10) (digitChar (n % 10) :: acc) := by
  simp [natToDigitsAux, h]

theorem natToDigits_lt10 (n : Nat) (h : n < 10) : natToDigits n = [digitChar n] :=
  natToDigitsAux_lt10 n n [] h

theorem natToDigits_two (n : Nat) (h1 : 10 ≤ n) (h2 : n ≤ 99) :
    natToDigits n = [digitChar (n / 10), digitChar (n % 10)] := by
  unfold natToDigits
  obtain ⟨k, hk⟩ : ∃ k, n + 1 = k + 2 := ⟨n - 1, by omega⟩
  rw [hk, natToDigitsAux_step (k + 1) n _ (by omega),
    natToDigitsAux_lt10 k _ _ (by omega)]

theorem natToDigits_four (y : Nat) (h1 : 1000 ≤ y) (h2 : y ≤ 9999) :
    natToDigits y = [digitChar (y / 1000), digitChar (y / 100 % 10),
      digitChar (y / 10 % 10), digitChar (y % 10)] := by
  unfold natToDigits
  obtain ⟨k, hk⟩ : ∃ k, y + 1 = k + 4 := ⟨y - 3, by omega⟩
  rw [hk, natToDigitsAux_step (k + 3) y _ (by omega),
    natToDigitsAux_step (k + 2) _ _ (by omega),
    natToDigitsAux_step (k + 1) _ _ (by omega),
    natToDigitsAux_lt10 k _ _ (by omega)]
  have e1 : y / 10 / 10 = y / 100 := by omega
  have e2 : y / 10 / 10 / 10 = y / 1000 := by omega
  rw [e1] at *
  rw [e2]

theorem pad2_lt10 (n : Nat) (h : n < 10) : pad2 n = ['0', digitChar n] := by
  unfold pad2
  rw [natToDigits_lt10 n h]
  simp

theorem pad2_ge10 (n : Nat) (h1 : 10 ≤ n) (h2 : n ≤ 99) :
    pad2 n = [digitChar (n / 10), digitChar (n % 10)] := by
  unfold pad2
  rw [natToDigits_two n h1 h2]
  simp

theorem zeroChar_eq_digitChar : ('0' : Char) = digitChar 0 := by decide

theorem parseNDigits_pad2 (n : Nat) (h : n ≤ 99) (rest : List Char) :
    parseNDigits 2 (pad2 n ++ rest) = some (n, rest) := by
  unfold parseNDigits
  by_cases hl : n < 10
  · rw [pad2_lt10 n hl]
    rw [show (['0', digitChar n] ++ rest) = digitChar 0 :: digitChar n :: rest by
      rw [zeroChar_eq_digitChar]; rfl]
    rw [parseDigitsAux_digitChar 1 0 0 (by omega) _,
      parseDigitsAux_digitChar 0 n _ (by omega) _]
    simp [parseDigitsAux]
  · rw [pad2_ge10 n (by omega) h]
    rw [show ([digitChar (n / 10), digitChar (n % 10)] ++ rest)
        = digitChar (n / 10) :: digitChar (n % 10) :: rest from rfl]
    rw [parseDigitsAux_digitChar 1 (n / 10) 0 (by omega) _,
      parseDigitsAux_digitChar 0 (n % 10) _ (by omega) _]
    simp only [parseDigitsAux]
    congr 1
    rw [Prod.mk.injEq]
    exact ⟨by omega, rfl⟩

theorem parseNDigits_year (y : Nat) (h1 : 1000 ≤ y) (h2 : y ≤ 9999)
    (rest : List Char) :
    parseNDigits 4 (natToDigits y ++ rest) = some (y, rest) := by
  unfold parseNDigits
  rw [natToDigits_four y h1 h2]
  rw [show ([digitChar (y / 1000), digitChar (y / 100 % 10),
      digitChar (y / 10 % 10), digitChar (y % 10)] ++ rest)
      = digitChar (y / 1000) :: digitChar (y / 100 % 10)
        :: digitChar (y / 10 % 10) :: digitChar (y % 10) :: rest from rfl]
  rw [parseDigitsAux_digitChar 3 (y / 1000) 0 (by omega) _,
    parseDigitsAux_digitChar 2 (y / 100 % 10) _ (by omega) _,
    parseDigitsAux_digitChar 1 (y / 10 % 10) _ (by omega) _,
    parseDigitsAux_digitChar 0 (y % 10) _ (by omega) _]
  simp only [parseDigitsAux]
  congr 1
  rw [Prod.mk.injEq]
  exact ⟨by omega, rfl⟩

theorem expectChar_cons (c : Char) (rest : List Char) :
    expectChar c (c :: rest) = some rest := by
  simp [expectChar]

theorem expectPrefix_append (pre rest : List Char) :
    expectPrefix pre (pre ++ rest) = some rest := by
  induction pre with
  | nil => rfl
  | cons p ps ih => simp [expectPrefix, ih]

/-- C4 (amended): for every date with a four-digit year and whole seconds,
and every non-empty message-id containing no line terminator,
`parseMessageFilename (messageFilename date id)` returns exactly
`(date, id)`. -/
theorem parseMessageFilename_roundtrip (d : UtcDate) (id : String)
    (hd : WellFormedUtcDate d) (hne : id.data ≠ [])
    (hdot : id.data.all jsDotMatches = true) :
    parseMessageFilename (messageFilename d id) = some (d, id) := by
  obtain ⟨hy1, hy2, hm1, hm2, hd1, hd2, hh, hmi, hs⟩ := hd
  have expectChar_append : ∀ (c : Char) (rest : List Char),
      expectChar c ([c] ++ rest) = some rest := fun c rest => expectChar_cons c rest
  unfold parseMessageFilename messageFilename toIsoBasic
  simp only [List.append_assoc]
  rw [parseNDigits_year d.year hy1 hy2]
  simp only [Option.bind_eq_bind, Option.some_bind]
  rw [parseNDigits_pad2 d.month (by omega)]
  simp only [Option.some_bind]
  rw [parseNDigits_pad2 d.day (by omega)]
  simp only [Option.some_bind]
  rw [expectChar_append]
  simp only [Option.some_bind]
  rw [parseNDigits_pad2 d.hour (by omega)]
  simp only [Option.some_bind]
  rw [parseNDigits_pad2 d.minute (by omega)]
  simp only [Option.some_bind]
  rw [parseNDigits_pad2 d.second (by omega)]
  simp only [Option.some_bind]
  rw [expectChar_append]
  simp only [Option.some_bind]
  rw [expectPrefix_append]
  simp only [Option.some_bind]
  rw [List.reverse_append]
  rw [show (['.', 'm', 'd'] : List Char).reverse ++ id.data.reverse
    = 'd' :: 'm' :: '.' :: id.data.reverse from rfl]
  have hrevne : id.data.reverse ≠ [] := by
    intro hc
    exact hne (by simpa using congrArg List.reverse hc)
  have hrevall : id.data.reverse.all jsDotMatches = true := by
    rw [List.all_reverse]; exact hdot
  show (if id.data.reverse ≠ [] ∧ id.data.reverse.all jsDotMatches = true then
      some ((⟨d.year, d.month, d.day, d.hour, d.minute, d.second⟩ : UtcDate),
        (⟨id.data.reverse.reverse⟩ : String))
    else none) = some (d, id)
  rw [if_pos ⟨hrevne, hrevall⟩, List.reverse_reverse]

/-- Witness for C4: the round-trip at a concrete date and id. -/
theorem parseMessageFilename_roundtrip_witness :
    WellFormedUtcDate ⟨2026, 2, 17, 9, 30, 0⟩ ∧
    parseMessageFilename (messageFilename ⟨2026, 2, 17, 9, 30, 0⟩ "msg001")
      = some (⟨2026, 2, 17, 9, 30, 0⟩, "msg001") :=
  ⟨by decide, parseMessageFilename_roundtrip ⟨2026, 2, 17, 9, 30, 0⟩ "msg001"
    (by decide) (by decide) (by decide)⟩

/- ───────────────────────── Snippet generator ─────────────────────────
   Source: `generateSnippet` in the cleaning module, at its default cap of
   300.  `maxLength * 0.7` for the default `maxLength = 300` is exactly
   `210.0` in binary64 (the rounding error of the literal `0.7` cancels when
   the product is rounded), so the word-boundary test is the strict integer
   comparison `lastSpace > 210`. -/

/-- The JS `\\s` class (ECMA-262 WhiteSpace ∪ LineTerminator). -/
def jsWhitespace (c : Char) : Bool :=
  c == ' ' || c == '\t' || c == '\n' || c == '\r' ||
  c == '\x0b' || c == '\x0c' || c == '\u00A0' || c == '\u1680' ||
  ('\u2000' ≤ c && c ≤ '\u200A') ||
  c == '\u2028' || c == '\u2029' || c == '\u202F' || c == '\u205F' ||
  c == '\u3000' || c == '\uFEFF'

/-- `body.replace(/\s+/g, " ")`: each maximal whitespace run becomes one
space (single pass; the flag records whether a run is in progress). -/
def collapseWsAux : Bool → List Char → List Char
  | _, [] => []
  | inRun, c :: rest =>
    if jsWhitespace c then
      if inRun then collapseWsAux true rest
      else ' ' :: collapseWsAux true rest
    else c :: collapseWsAux false rest

/-- `replace(/\s+/g, " ")` on a whole string. -/
def collapseWs (l : List Char) : List Char := collapseWsAux false l

/-- `String.prototype.trim`: strip leading and trailing `\s`. -/
def jsTrim (l : List Char) : List Char :=
  ((l.dropWhile jsWhitespace).reverse.dropWhile jsWhitespace).reverse

/-- The `collapsed` value of `generateSnippet`:
`body.replace(/\s+/g, " ").trim()`. -/
def collapseAndTrim (body : String) : List Char := jsTrim (collapseWs body.data)

/-- `String.prototype.lastIndexOf` for a single character: the index of the
last occurrence, or `-1`. -/
def lastIndexOfChar (l : List Char) (c : Char) : Int :=
  match l.reverse.findIdx? (fun x => x == c) with
  | some i => ((l.length - 1 - i : Nat) : Int)
  | none => -1

/-- The default snippet cap. -/
def SNIPPET_MAX_LENGTH : Nat := 300

/-- `maxLength * 0.7` for the default cap, as the exact binary64 value. -/
def SNIPPET_BOUNDARY : Int := 210

/-- `generateSnippet(body)` at the default cap: return the collapsed text
when it fits; otherwise cut the first 300 characters back to the last space
when that space lies strictly beyond index 210, and append `...`. -/
def generateSnippet (body : String) : String :=
  let collapsed := collapseAndTrim body
  if collapsed.length ≤ SNIPPET_MAX_LENGTH then ⟨collapsed⟩
  else
    let truncated := collapsed.take SNIPPET_MAX_LENGTH
    let lastSpace := lastIndexOfChar truncated ' '
    if lastSpace > SNIPPET_BOUNDARY then ⟨truncated.take lastSpace.toNat ++ "...".data⟩
    else ⟨truncated ++ "...".data⟩

/-- A 306-character body: 210 `a`s, one space, 95 `b`s. -/
def snippetCounterexampleBody : String :=
  ⟨List.replicate 210 'a' ++ [' '] ++ List.replicate 95 'b'⟩

/-- Counterexample to C7: this body collapses to itself (306 chars, one
space at index 210 — exactly 70% of the cap).  The claim requires a result
of at most 300 characters cut at that word boundary; the code's strict
`lastSpace > 210` test fails, so it returns the raw 300-character cut plus
the ellipsis: 303 characters, not cut at the boundary. -/
theorem generateSnippet_boundary_counterexample :
    (generateSnippet snippetCounterexampleBody).length = 303 ∧
    lastIndexOfChar ((collapseAndTrim snippetCounterexampleBody).take 300) ' '
      = 210 := by
  constructor
  · rfl
  · rfl


theorem findIdx?_some_spec (p : Char → Bool) :
    ∀ (l : List Char) (i : Nat), l.findIdx? p = some i →
      ∃ hi : i < l.length, p (l.get ⟨i, hi⟩) = true := by
  intro l
  induction l with
  | nil => intro i h; simp [List.findIdx?] at h
  | cons x xs ih =>
    intro i h
    rw [List.findIdx?_cons] at h
    by_cases hx : p x = true
    · rw [if_pos hx] at h
      injection h with h
      subst h
      exact ⟨by simp, hx⟩
    · rw [if_neg hx, List.findIdx?_succ] at h
      rcases Option.map_eq_some'.mp h with ⟨j, hj, rfl⟩
      obtain ⟨hjl, hpj⟩ := ih j hj
      exact ⟨by simpa using hjl, by simpa using hpj⟩

/-- C7 (amended): at the default cap, `generateSnippet` returns the
whitespace-collapsed, trimmed body when that text is at most 300 characters;
otherwise it returns a prefix of the collapsed text of length between 211
and 300 with `...` appended (so up to 303 characters in total), and whenever
the cut is before the 300-character limit it falls on a space (the last
space of the first 300 characters, by the strict `> 210` boundary test). -/
theorem generateSnippet_spec (body : String) :
    ((collapseAndTrim body).length ≤ 300 →
      generateSnippet body = ⟨collapseAndTrim body⟩) ∧
    (300 < (collapseAndTrim body).length →
      ∃ k, 211 ≤ k ∧ k ≤ 300 ∧
        generateSnippet body = ⟨(collapseAndTrim body).take k ++ "...".data⟩ ∧
        (generateSnippet body).length = k + 3 ∧
        (k < 300 → ∃ hk : k < (collapseAndTrim body).length,
            (collapseAndTrim body).get ⟨k, hk⟩ = ' ')) := by
  constructor
  · intro h
    unfold generateSnippet
    rw [if_pos (by simpa [SNIPPET_MAX_LENGTH] using h)]
  · intro h
    unfold generateSnippet
    rw [if_neg (by simp only [SNIPPET_MAX_LENGTH]; omega)]
    have htlen : ((collapseAndTrim body).take SNIPPET_MAX_LENGTH).length = 300 := by
      simp only [SNIPPET_MAX_LENGTH, List.length_take]
      omega
    by_cases hgt : lastIndexOfChar ((collapseAndTrim body).take SNIPPET_MAX_LENGTH) ' '
        > SNIPPET_BOUNDARY
    · rw [if_pos hgt]
      cases hf : ((collapseAndTrim body).take SNIPPET_MAX_LENGTH).reverse.findIdx?
          (fun x => x == ' ') with
      | none =>
        have hval : lastIndexOfChar ((collapseAndTrim body).take SNIPPET_MAX_LENGTH) ' '
            = -1 := by
          unfold lastIndexOfChar
          rw [hf]
        rw [hval] at hgt
        simp [SNIPPET_BOUNDARY] at hgt
      | some i =>
        have hval : lastIndexOfChar ((collapseAndTrim body).take SNIPPET_MAX_LENGTH) ' '
            = ((((collapseAndTrim body).take SNIPPET_MAX_LENGTH).length - 1 - i : Nat) : Int) := by
          unfold lastIndexOfChar
          rw [hf]
        rw [hval] at hgt ⊢
        obtain ⟨hil, hpi⟩ := findIdx?_some_spec _ _ i hf
        rw [List.length_reverse, htlen] at hil
        have hk211 : 211 ≤ ((collapseAndTrim body).take SNIPPET_MAX_LENGTH).length - 1 - i := by
          rw [htlen]
          simp only [SNIPPET_BOUNDARY, htlen] at hgt
          omega
        set k := ((collapseAndTrim body).take SNIPPET_MAX_LENGTH).length - 1 - i with hkdef
        have hk300 : k < 300 := by rw [hkdef, htlen]; omega
        refine ⟨k, hk211, by omega, ?_, ?_, ?_⟩
        · have htt : ((collapseAndTrim body).take SNIPPET_MAX_LENGTH).take k
              = (collapseAndTrim body).take k := by
            rw [List.take_take]
            congr 1
            simp only [SNIPPET_MAX_LENGTH]
            omega
          rw [Int.toNat_ofNat, htt]
        · rw [Int.toNat_ofNat]
          show (((collapseAndTrim body).take SNIPPET_MAX_LENGTH).take k
              ++ "...".data).length = k + 3
          rw [List.length_append, List.length_take]
          rw [htlen]
          show min k 300 + 3 = k + 3
          omega
        · intro _
          have hk' : k < (collapseAndTrim body).length := by omega
          refine ⟨hk', ?_⟩
          have hrev : ((collapseAndTrim body).take SNIPPET_MAX_LENGTH).reverse.get
              ⟨i, by rw [List.length_reverse, htlen]; omega⟩
              = ((collapseAndTrim body).take SNIPPET_MAX_LENGTH).get
                  ⟨k, by rw [htlen]; omega⟩ := by
            rw [List.get_eq_getElem, List.get_eq_getElem, List.getElem_reverse]
          have hsp : ((collapseAndTrim body).take SNIPPET_MAX_LENGTH).get
              ⟨k, by rw [htlen]; omega⟩ = ' ' := by
            rw [← hrev]
            exact beq_iff_eq.mp hpi
          rw [← hsp]
          rw [List.get_eq_getElem, List.get_eq_getElem, List.getElem_take]
    · rw [if_neg hgt]
      refine ⟨300, by omega, le_refl 300, ?_, ?_, by omega⟩
      · rfl
      · show (((collapseAndTrim body).take SNIPPET_MAX_LENGTH) ++ "...".data).length
            = 300 + 3
        rw [List.length_append, htlen]
        rfl


/-- Witness for C7: both branches at concrete bodies — a short body is
returned collapsed verbatim; the 306-character body is truncated with an
ellipsis. -/
theorem generateSnippet_spec_witness :
    generateSnippet "Short message" = ⟨collapseAndTrim "Short message"⟩ ∧
    (∃ k, 211 ≤ k ∧ k ≤ 300 ∧
      generateSnippet snippetCounterexampleBody
        = ⟨(collapseAndTrim snippetCounterexampleBody).take k ++ "...".data⟩ ∧
      (generateSnippet snippetCounterexampleBody).length = k + 3 ∧
      (k < 300 → ∃ hk : k < (collapseAndTrim snippetCounterexampleBody).length,
          (collapseAndTrim snippetCounterexampleBody).get ⟨k, hk⟩ = ' ')) :=
  ⟨(generateSnippet_spec "Short message").1 (by decide),
   (generateSnippet_spec snippetCounterexampleBody).2 (by decide)⟩

/- ───────────────────────── Thread grouper ─────────────────────────
   Source: `groupIntoThreads`, `normalizeSubject`, `hashString` in the IMAP
   sync module.  Messages carry the four headers `parseQuickHeaders`
   extracts (empty string = header absent); the `Map` of message-id →
   thread-id is an insertion-ordered association list with JS `Map`
   semantics; the grouper is modelled as the list of (message, thread-id)
   assignments — the returned `Map` of threads is their stable grouping. -/

/-- One IMAP message as the grouper sees it after the cheap header scan. -/
structure ImapMessage where
  uid : Nat
  messageId : String
  inReplyTo : String
  references : List String
  subject : String
deriving Repr, DecidableEq

/-- `toLowerCase` on the ASCII range (all subjects this development uses). -/
def asciiToLower (c : Char) : Char :=
  if 'A' ≤ c && c ≤ 'Z' then Char.ofNat (c.toNat + 32) else c

/-- One application of `replace(/^(re|fw|fwd):\s*/gi, "")`: with `^` and no
`m` flag the pattern matches only at position 0, so each application removes
at most ONE leading marker together with the whitespace after it. -/
def stripOneReplyMarker : List Char → List Char
  | c1 :: c2 :: ':' :: rest =>
    if (asciiToLower c1 == 'r' && asciiToLower c2 == 'e') ||
       (asciiToLower c1 == 'f' && asciiToLower c2 == 'w') then
      rest.dropWhile jsWhitespace
    else c1 :: c2 :: ':' :: rest
  | c1 :: c2 :: c3 :: ':' :: rest =>
    if asciiToLower c1 == 'f' && asciiToLower c2 == 'w' && asciiToLower c3 == 'd' then
      rest.dropWhile jsWhitespace
    else c1 :: c2 :: c3 :: ':' :: rest
  | l => l

/-- `normalizeSubject`: the marker-stripping replace applied twice (the
source comment says `double strip for "Re: Re:"`), then `trim()`, then
`toLowerCase()`. -/
def normalizeSubject (subject : String) : String :=
  ⟨(jsTrim (stripOneReplyMarker (stripOneReplyMarker subject.data))).map asciiToLower⟩

/-- Wrap to the signed 32-bit range (`| 0`). -/
def toInt32 (n : Int) : Int := (n + 2147483648) % 4294967296 - 2147483648

/-- One step of `hashString`: `hash = ((hash << 5) - hash) + chr; hash |= 0`
(the shift wraps to int32 first; the subtraction and addition are exact in
binary64 and then wrapped by `|= 0`). -/
def hashStep (hash : Int) (chr : Nat) : Int :=
  toInt32 (toInt32 (hash * 32) - hash + chr)

/-- The UTF-16 code units of one character (`charCodeAt` walks these). -/
def utf16CodeUnits (c : Char) : List Nat :=
  if c.toNat < 65536 then [c.toNat]
  else [55296 + (c.toNat - 65536) / 1024, 56320 + (c.toNat - 65536) % 1024]

/-- The sequence of `charCodeAt(i)` values of a string. -/
def jsCharCodes (s : String) : List Nat := s.data.flatMap utf16CodeUnits

/-- Base-36 digit character (`0-9a-z`). -/
def digit36Char (d : Nat) : Char :=
  if d < 10 then digitChar d else Char.ofNat (87 + d)

/-- Base-36 rendering (`Number.prototype.toString(36)`), fuel-structural. -/
def natToDigits36Aux : Nat → Nat → List Char → List Char
  | 0, _, acc => acc
  | fuel + 1, n, acc =>
    if n < 36 then digit36Char n :: acc
    else natToDigits36Aux fuel (n / 36) (digit36Char (n % 36) :: acc)

/-- Base-36 rendering of a natural number. -/
def natToDigits36 (n : Nat) : List Char := natToDigits36Aux (n + 1) n []

/-- `padStart(n, c)` on a character list. -/
def padStartList (l : List Char) (n : Nat) (c : Char) : List Char :=
  List.replicate (n - l.length) c ++ l

/-- `hashString(str)`: the 32-bit fold over the code units, absolute value,
base-36, padded to 8 characters. -/
def hashString (str : String) : String :=
  ⟨padStartList (natToDigits36 ((jsCharCodes str).foldl hashStep 0).natAbs) 8 '0'⟩

/-- JS `Map.prototype.get` on the association-list model. -/
def mapGet (m : List (String × String)) (k : String) : Option String :=
  (m.find? (fun kv => kv.1 == k)).map Prod.snd

/-- JS `Map.prototype.set`: overwrite in place or append. -/
def mapSet (m : List (String × String)) (k v : String) : List (String × String) :=
  if m.any (fun kv => kv.1 == k) then
    m.map (fun kv => if kv.1 == k then (k, v) else kv)
  else m ++ [(k, v)]

/-- The reference loop: the first entry of `references` found in the map
wins. -/
def findRefThread (m : List (String × String)) : List String → Option String
  | [] => none
  | r :: rest =>
    match mapGet m r with
    | some t => some t
    | none => findRefThread m rest

/-- The thread id assigned to one message given the current
message-id → thread-id map: inherit via `in_reply_to` when present and in
the map, else via the first `references` hit, else the hash fallback
`normalizedSubject || msgId || uid-<uid>`. -/
def assignOneThreadId (m : List (String × String)) (msg : ImapMessage) : String :=
  let t1 : Option String :=
    if msg.inReplyTo ≠ "" then mapGet m msg.inReplyTo else none
  let t2 : Option String :=
    match t1 with
    | some t => some t
    | none => findRefThread m msg.references
  match t2 with
  | some t => t
  | none =>
    hashString (if normalizeSubject msg.subject ≠ "" then normalizeSubject msg.subject
      else if msg.messageId ≠ "" then msg.messageId
      else ⟨"uid-".data ++ natToDigits msg.uid⟩)

/-- One step of the grouper fold: assign a thread id, then register this
message's id (when present) for subsequent messages. -/
def groupStep (st : List (String × String) × List (ImapMessage × String))
    (msg : ImapMessage) : List (String × String) × List (ImapMessage × String) :=
  let threadId := assignOneThreadId st.1 msg
  (if msg.messageId ≠ "" then mapSet st.1 msg.messageId threadId else st.1,
   st.2 ++ [(msg, threadId)])

/-- `groupIntoThreads(messages)` as the in-order list of
(message, thread-id) assignments. -/
def groupIntoThreads (messages : List ImapMessage) : List (ImapMessage × String) :=
  (messages.foldl groupStep ([], [])).2

/-- The message-id → thread-id map after processing a batch. -/
def msgIdMapAfter (messages : List ImapMessage) : List (String × String) :=
  (messages.foldl groupStep ([], [])).1

/-- Counterexample to C9: the claim says ALL leading `re:`/`fw:`/`fwd:`
repetitions are stripped before hashing, but the replace is applied exactly
twice and each application strips one marker, so a triple `Re:` keeps its
third marker and hashes to a different thread id than the bare subject. -/
theorem groupIntoThreads_triple_marker_counterexample :
    normalizeSubject "Re: Re: Re: Hello" = "re: hello" ∧
    groupIntoThreads [⟨1, "", "", [], "Re: Re: Re: Hello"⟩]
      = [(⟨1, "", "", [], "Re: Re: Re: Hello"⟩, hashString "re: hello")] ∧
    hashString "re: hello" ≠ hashString "hello" := by
  refine ⟨rfl, rfl, by decide⟩


theorem toInt32_bounds (n : Int) :
    -2147483648 ≤ toInt32 n ∧ toInt32 n < 2147483648 := by
  unfold toInt32
  have h1 : 0 ≤ (n + 2147483648) % 4294967296 :=
    Int.emod_nonneg _ (by norm_num)
  have h2 : (n + 2147483648) % 4294967296 < 4294967296 :=
    Int.emod_lt_of_pos _ (by norm_num)
  omega

theorem foldl_hashStep_bounds (codes : List Nat) :
    ∀ h0 : Int, -2147483648 ≤ h0 → h0 < 2147483648 →
      -2147483648 ≤ codes.foldl hashStep h0 ∧
      codes.foldl hashStep h0 < 2147483648 := by
  induction codes with
  | nil => intro h0 hl hu; exact ⟨hl, hu⟩
  | cons c cs ih =>
    intro h0 hl hu
    rw [List.foldl_cons]
    obtain ⟨l, u⟩ := toInt32_bounds (toInt32 (h0 * 32) - h0 + c)
    exact ih _ l u

theorem natToDigits36Aux_length (m : Nat) :
    ∀ (fuel n : Nat) (acc : List Char), n < 36 ^ m → 1 ≤ m →
      (natToDigits36Aux fuel n acc).length ≤ m + acc.length := by
  induction m with
  | zero => intro fuel n acc _ h1; omega
  | succ m ih =>
    intro fuel n acc hn _
    match fuel with
    | 0 => simp [natToDigits36Aux]
    | fuel + 1 =>
      by_cases h36 : n < 36
      · rw [natToDigits36Aux, if_pos h36]
        simp only [List.length_cons]
        omega
      · rw [natToDigits36Aux, if_neg h36]
        have hm1 : 1 ≤ m := by
          by_contra hc
          have : m = 0 := by omega
          subst this
          simp [pow_succ] at hn
          omega
        have hdiv : n / 36 < 36 ^ m := by
          rw [Nat.div_lt_iff_lt_mul (by norm_num)]
          calc n < 36 ^ (m + 1) := hn
            _ = 36 ^ m * 36 := by rw [pow_succ]
        have := ih fuel (n / 36) (digit36Char (n % 36) :: acc) hdiv hm1
        simp only [List.length_cons] at this
        omega

/-- Every thread id produced by the subject-hash fallback is exactly eight
characters: the 32-bit hash's absolute value is below `36^6`, so the base-36
rendering has at most six digits and `padStart(8, "0")` brings it to
exactly eight. -/
theorem hashString_length (s : String) : (hashString s).length = 8 := by
  unfold hashString
  show (padStartList (natToDigits36 ((jsCharCodes s).foldl hashStep 0).natAbs)
    8 '0').length = 8
  obtain ⟨hl, hu⟩ := foldl_hashStep_bounds (jsCharCodes s) 0 (by norm_num) (by norm_num)
  have habs : ((jsCharCodes s).foldl hashStep 0).natAbs < 36 ^ 6 := by
    have : ((jsCharCodes s).foldl hashStep 0).natAbs ≤ 2147483648 := by omega
    calc ((jsCharCodes s).foldl hashStep 0).natAbs ≤ 2147483648 := this
      _ < 36 ^ 6 := by norm_num
  have hlen := natToDigits36Aux_length 6
    (((jsCharCodes s).foldl hashStep 0).natAbs + 1)
    ((jsCharCodes s).foldl hashStep 0).natAbs [] habs (by norm_num)
  simp only [List.length_nil] at hlen
  unfold padStartList natToDigits36
  rw [List.length_append, List.length_replicate]
  omega

theorem findRefThread_first_hit (m : List (String × String)) (t : String) :
    ∀ (l1 : List String) (r : String) (l2 : List String),
      (∀ r2 ∈ l1, mapGet m r2 = none) → mapGet m r = some t →
      findRefThread m (l1 ++ r :: l2) = some t := by
  intro l1
  induction l1 with
  | nil =>
    intro r l2 _ hr
    simp only [List.nil_append, findRefThread, hr]
  | cons x xs ih =>
    intro r l2 hnone hr
    have hx : mapGet m x = none := hnone x (List.mem_cons_self x xs)
    simp only [List.cons_append, findRefThread, hx]
    exact ih r l2 (fun r2 h2 => hnone r2 (List.mem_cons_of_mem x h2)) hr

theorem findRefThread_none (m : List (String × String)) :
    ∀ refs : List String, (∀ r ∈ refs, mapGet m r = none) →
      findRefThread m refs = none := by
  intro refs
  induction refs with
  | nil => intro _; rfl
  | cons x xs ih =>
    intro hnone
    have hx : mapGet m x = none := hnone x (List.mem_cons_self x xs)
    simp only [findRefThread, hx]
    exact ih (fun r h => hnone r (List.mem_cons_of_mem x h))

/-- C9 (amended): the grouper processes the batch in order, registering each
message's id after assigning it a thread id (first conjunct); a message
whose `in_reply_to` is present and mapped inherits that thread (second); a
message whose `in_reply_to` is absent or unmapped inherits the thread of the
first mapped entry of `references` (third); with no usable reference it
hashes the normalized subject — the subject with AT MOST TWO leading
`re:`/`fw:`/`fwd:` markers stripped, trimmed and lowercased — falling back
to the message id, then to `uid-<uid>` (fourth); and the hash rendering is
always exactly eight base-36 characters (fifth). -/
theorem groupIntoThreads_spec :
    (∀ (msgs : List ImapMessage) (msg : ImapMessage),
       groupIntoThreads (msgs ++ [msg])
         = groupIntoThreads msgs
             ++ [(msg, assignOneThreadId (msgIdMapAfter msgs) msg)]) ∧
    (∀ (m : List (String × String)) (msg : ImapMessage) (t : String),
       msg.inReplyTo ≠ "" → mapGet m msg.inReplyTo = some t →
       assignOneThreadId m msg = t) ∧
    (∀ (m : List (String × String)) (msg : ImapMessage) (t : String)
       (l1 : List String) (r : String) (l2 : List String),
       (msg.inReplyTo = "" ∨ mapGet m msg.inReplyTo = none) →
       msg.references = l1 ++ r :: l2 →
       (∀ r2 ∈ l1, mapGet m r2 = none) → mapGet m r = some t →
       assignOneThreadId m msg = t) ∧
    (∀ (m : List (String × String)) (msg : ImapMessage),
       (msg.inReplyTo = "" ∨ mapGet m msg.inReplyTo = none) →
       (∀ r ∈ msg.references, mapGet m r = none) →
       assignOneThreadId m msg
         = hashString (if normalizeSubject msg.subject ≠ "" then
               normalizeSubject msg.subject
             else if msg.messageId ≠ "" then msg.messageId
             else ⟨"uid-".data ++ natToDigits msg.uid⟩)) ∧
    (∀ s : String, (hashString s).length = 8) := by
  refine ⟨?_, ?_, ?_, ?_, hashString_length⟩
  · intro msgs msg
    unfold groupIntoThreads msgIdMapAfter
    rw [List.foldl_append]
    rfl
  · intro m msg t hne hget
    unfold assignOneThreadId
    rw [if_pos hne, hget]
  · intro m msg t l1 r l2 hno hrefs hl1 hr
    unfold assignOneThreadId
    have ht1 : (if msg.inReplyTo ≠ "" then mapGet m msg.inReplyTo else none)
        = none := by
      rcases hno with h | h
      · rw [if_neg (by simp [h])]
      · rw [h]
        split <;> rfl
    rw [ht1, hrefs, findRefThread_first_hit m t l1 r l2 hl1 hr]
  · intro m msg hno hrefs
    unfold assignOneThreadId
    have ht1 : (if msg.inReplyTo ≠ "" then mapGet m msg.inReplyTo else none)
        = none := by
      rcases hno with h | h
      · rw [if_neg (by simp [h])]
      · rw [h]
        split <;> rfl
    rw [ht1, findRefThread_none m msg.references hrefs]

/-- Witness for C9: a concrete message inheriting its thread id through
`in_reply_to`, and a concrete derivation through the subject hash. -/
theorem groupIntoThreads_spec_witness :
    assignOneThreadId [("<a@x>", "tid1")] ⟨2, "<b@x>", "<a@x>", [], "Re: Hi"⟩
      = "tid1" ∧
    assignOneThreadId [] ⟨3, "", "", [], "Hello"⟩ = hashString "hello" :=
  ⟨groupIntoThreads_spec.2.1 [("<a@x>", "tid1")]
      ⟨2, "<b@x>", "<a@x>", [], "Re: Hi"⟩ "tid1" (by decide) (by decide),
   by
    have h := groupIntoThreads_spec.2.2.2.1 []
      ⟨3, "", "", [], "Hello"⟩ (Or.inl rfl) (by intro r hr; simp at hr)
    rw [h]
    decide⟩

/- ───────────────────────── cmdSync and last_uid ─────────────────────────
   Source: `cmdSync` in the unified CLI (pass selection and the
   account-metadata update) and `imapFullSync` (its returned `lastUid`).
   `imapIncrementalSync` and `imapUnreadSync` are imported there but their
   implementation is not part of the sources; they are modelled from the
   spec below. -/

/-- `AccountMeta` (account.json): the fields `cmdSync` touches. -/
structure AccountMeta where
  last_sync : Option String
  last_uid : Option Nat
  sync_state : String
deriving Repr, DecidableEq

/-- The result record every sync pass returns to `cmdSync`. -/
structure SyncResult where
  lastUid : Nat
  threadCount : Nat
deriving Repr, DecidableEq

/-- The flags `cmdSync` reads: `--full` and `--unread`. -/
structure SyncFlags where
  full : Bool
  unread : Bool
deriving Repr, DecidableEq

/-- `imapFullSync`: `lastUid` is the maximum fetched UID, or 0 when the
fetch is empty (`Math.max(...uids)` over naturals); `threadCount` is the
number of distinct thread ids of the grouping. -/
def imapFullSyncResult (messages : List ImapMessage) : SyncResult :=
  { lastUid := match messages with
      | [] => 0
      | _ => (messages.map ImapMessage.uid).foldl max 0,
    threadCount := ((groupIntoThreads messages).map Prod.snd).dedup.length }

/-- Modelled from the spec: `imapIncrementalSync` is imported by the CLI but
its implementation is missing from the sources.  Per the spec, it runs
`fetch_since(last_uid)` (UIDs strictly above the stored mark, with a
client-side `uid > last_uid` filter) through the same pipeline and
"`last_uid` advances"; re-running with no new mail keeps the stored value
(spec scenario 5). -/
def imapIncrementalSyncResult (lastUid : Nat) (messages : List ImapMessage) :
    SyncResult :=
  let newMsgs := messages.filter (fun m => lastUid < m.uid)
  { lastUid := (newMsgs.map ImapMessage.uid).foldl max lastUid,
    threadCount := ((groupIntoThreads newMsgs).map Prod.snd).dedup.length }

/-- Modelled from the spec: `imapUnreadSync` is imported by the CLI but its
implementation is missing from the sources.  The spec says the unread-only
pass performs no high-water update, yet its call site types it as returning
a `lastUid` — and it is called without the stored mark, so the value it
returns cannot depend on it; modelled with the same max-of-fetched-UIDs
shape as the full pass (any value independent of the stored mark exhibits
the same overwrite in `cmdSync`). -/
def imapUnreadSyncResult (messages : List ImapMessage) : SyncResult :=
  { lastUid := match messages with
      | [] => 0
      | _ => (messages.map ImapMessage.uid).foldl max 0,
    threadCount := ((groupIntoThreads messages).map Prod.snd).dedup.length }

/-- The pass `cmdSync` selects: unread-only under `--unread`; incremental
when not forced full and a positive `last_uid` is stored
(`!forceFullSync && meta.last_uid && meta.last_uid > 0`); else full. -/
def cmdSyncResult (meta : AccountMeta) (flags : SyncFlags)
    (unreadMsgs sinceMsgs recentMsgs : List ImapMessage) : SyncResult :=
  if flags.unread then imapUnreadSyncResult unreadMsgs
  else if flags.full = false ∧ 0 < meta.last_uid.getD 0 then
    imapIncrementalSyncResult (meta.last_uid.getD 0) sinceMsgs
  else imapFullSyncResult recentMsgs

/-- The metadata update at the end of `cmdSync`: `last_sync = now`,
`sync_state = "idle"`, `last_uid = result.lastUid` — unconditionally, for
every pass. -/
def cmdSyncPersist (meta : AccountMeta) (result : SyncResult) (now : String) :
    AccountMeta :=
  { meta with
      last_sync := some now
      sync_state := "idle"
      last_uid := some result.lastUid }

/-- `cmdSync` end to end: select a pass, then persist its result. -/
def cmdSync (meta : AccountMeta) (flags : SyncFlags)
    (unreadMsgs sinceMsgs recentMsgs : List ImapMessage) (now : String) :
    AccountMeta :=
  cmdSyncPersist meta (cmdSyncResult meta flags unreadMsgs sinceMsgs recentMsgs) now

/-- Counterexample to C2: an account with `last_uid = 100` running
`sync --full` while the fetch returns nothing gets `last_uid = 0`
persisted — a strict decrease — and `sync --unread` likewise overwrites
the stored mark with the unread pass's own value. -/
theorem cmdSync_full_resets_last_uid :
    (cmdSync ⟨none, some 100, "idle"⟩ ⟨true, false⟩ [] [] [] "t1").last_uid
      = some 0 ∧
    (cmdSync ⟨none, some 100, "idle"⟩ ⟨false, true⟩ [] [] [] "t1").last_uid
      = some 0 := by
  constructor
  · rfl
  · rfl

theorem le_foldl_max (l : List Nat) : ∀ s : Nat, s ≤ l.foldl max s := by
  induction l with
  | nil => intro s; exact le_refl s
  | cons x xs ih =>
    intro s
    rw [List.foldl_cons]
    exact le_trans (Nat.le_max_left s x) (ih (max s x))

/-- C2 (amended): after every pass — full, incremental or unread-only —
`cmdSync` persists exactly the pass's returned `lastUid` (so the unread-only
pass DOES update the high-water mark); the persisted value is monotonically
non-decreasing only on the incremental selection path, while a forced (or
first) full pass persists the maximum fetched UID — 0 when the fetch is
empty — which may be smaller than the stored mark. -/
theorem cmdSync_last_uid_spec (meta : AccountMeta) (flags : SyncFlags)
    (unreadMsgs sinceMsgs recentMsgs : List ImapMessage) (now : String) :
    (cmdSync meta flags unreadMsgs sinceMsgs recentMsgs now).last_uid
      = some (cmdSyncResult meta flags unreadMsgs sinceMsgs recentMsgs).lastUid ∧
    (flags.unread = false → flags.full = false → 0 < meta.last_uid.getD 0 →
      meta.last_uid.getD 0
        ≤ (cmdSyncResult meta flags unreadMsgs sinceMsgs recentMsgs).lastUid) := by
  constructor
  · rfl
  · intro hu hf hpos
    unfold cmdSyncResult
    rw [if_neg (by simp [hu]), if_pos ⟨hf, hpos⟩]
    unfold imapIncrementalSyncResult
    exact le_foldl_max _ _

/-- Witness for C2: on the incremental path with stored `last_uid = 100` and
new UIDs 101–103, the persisted mark is 103 ≥ 100. -/
theorem cmdSync_last_uid_spec_witness :
    (cmdSync ⟨none, some 100, "idle"⟩ ⟨false, false⟩ []
        [⟨101, "", "", [], "a"⟩, ⟨102, "", "", [], "b"⟩, ⟨103, "", "", [], "c"⟩]
        [] "t1").last_uid
      = some (cmdSyncResult ⟨none, some 100, "idle"⟩ ⟨false, false⟩ []
        [⟨101, "", "", [], "a"⟩, ⟨102, "", "", [], "b"⟩, ⟨103, "", "", [], "c"⟩]
        []).lastUid ∧
    (100 : Nat) ≤ (cmdSyncResult ⟨none, some 100, "idle"⟩ ⟨false, false⟩ []
        [⟨101, "", "", [], "a"⟩, ⟨102, "", "", [], "b"⟩, ⟨103, "", "", [], "c"⟩]
        []).lastUid :=
  ⟨(cmdSync_last_uid_spec ⟨none, some 100, "idle"⟩ ⟨false, false⟩ []
      [⟨101, "", "", [], "a"⟩, ⟨102, "", "", [], "b"⟩, ⟨103, "", "", [], "c"⟩]
      [] "t1").1,
   (cmdSync_last_uid_spec ⟨none, some 100, "idle"⟩ ⟨false, false⟩ []
      [⟨101, "", "", [], "a"⟩, ⟨102, "", "", [], "b"⟩, ⟨103, "", "", [], "c"⟩]
      [] "t1").2 rfl rfl (by decide)⟩

/- ───────────────────────── Path resolver ─────────────────────────
   Source: `accountDir` / `threadDir` / `messagesDir` / `attachmentsDir` /
   `threadMetaPath` in the shared paths module, built on `node:path.join`,
   which concatenates with `/` and normalizes (`.` and empty segments
   vanish, `..` pops; POSIX semantics, absolute base).  A path is its list
   of normalized segments. -/

/-- Split on `/` (the separator handling of `join`'s normalization). -/
def splitSlashAux : List Char → List Char → List String
  | [], cur => [⟨cur.reverse⟩]
  | c :: rest, cur =>
    if c = '/' then (⟨cur.reverse⟩ : String) :: splitSlashAux rest []
    else splitSlashAux rest (c :: cur)

/-- The `/`-separated segments of one path part. -/
def splitSlash (s : String) : List String := splitSlashAux s.data []

/-- One step of normalization of an absolute path: empty and `.` segments
vanish, `..` pops (and vanishes at the root), anything else is pushed. -/
def normStep (stack : List String) (seg : String) : List String :=
  if seg = "" ∨ seg = "." then stack
  else if seg = ".." then stack.dropLast
  else stack ++ [seg]

/-- `path.join(dir, part)` with `dir` already a normalized absolute path:
append `part`'s segments through the normalization stack. -/
def joinPath (dir : List String) (part : String) : List String :=
  (splitSlash part).foldl normStep dir

/-- `accountDir(email, base)` = `join(base, "accounts", email)`. -/
def accountDir (email base : String) : List String :=
  joinPath (joinPath (splitSlash base |>.foldl normStep []) "accounts") email

/-- `threadDir(email, threadId, base)` = `join(accountDir, "threads", threadId)`. -/
def threadDir (email threadId base : String) : List String :=
  joinPath (joinPath (accountDir email base) "threads") threadId

/-- `threadMetaPath` = `join(threadDir, "thread.json")`. -/
def threadMetaPath (email threadId base : String) : List String :=
  joinPath (threadDir email threadId base) "thread.json"

/-- `messagesDir` = `join(threadDir, "messages")`. -/
def messagesDir (email threadId base : String) : List String :=
  joinPath (threadDir email threadId base) "messages"

/-- `attachmentsDir` = `join(threadDir, "attachments")`. -/
def attachmentsDir (email threadId base : String) : List String :=
  joinPath (threadDir email threadId base) "attachments"

/-- `sanitizeFilename` of the attachment writer: reserved characters and
`..` become `_`, the result is trimmed, and an empty result becomes
`attachment` (attachment FILENAMES are sanitized — thread ids are not). -/
def sanitizeFilename (name : String) : String :=
  let step1 : List Char := name.data.map (fun c =>
    if c ∈ ['/', '\\', ':', '*', '?', '"', '<', '>', '|'] then '_' else c)
  let rec replaceDotDot : List Char → List Char
    | '.' :: '.' :: rest => '_' :: replaceDotDot rest
    | c :: rest => c :: replaceDotDot rest
    | [] => []
  let step2 := jsTrim (replaceDotDot step1)
  if step2 = [] then "attachment" else ⟨step2⟩

/-- Counterexample to C5: a thread id containing `..` escapes the account
subtree — `threadDir("user@example.com", "../../escape", "/data")` resolves
to `/data/accounts/escape`, which is not under
`accountDir("user@example.com", "/data")` = `/data/accounts/user@example.com`. -/
theorem threadDir_escapes_account_subtree :
    threadDir "user@example.com" "../../escape" "/data"
      = ["data", "accounts", "escape"] ∧
    accountDir "user@example.com" "/data"
      = ["data", "accounts", "user@example.com"] ∧
    (∀ t : List String,
       accountDir "user@example.com" "/data" ++ t
         ≠ threadDir "user@example.com" "../../escape" "/data") := by
  refine ⟨rfl, rfl, ?_⟩
  intro t h
  rw [show threadDir "user@example.com" "../../escape" "/data"
      = ["data", "accounts", "escape"] from rfl,
    show accountDir "user@example.com" "/data"
      = ["data", "accounts", "user@example.com"] from rfl] at h
  simp at h

theorem splitSlash_single (s : String) (h : ¬ '/' ∈ s.data) :
    splitSlash s = [s] := by
  unfold splitSlash
  have : ∀ (l : List Char) (cur : List Char), ¬ '/' ∈ l →
      splitSlashAux l cur = [⟨cur.reverse ++ l⟩] := by
    intro l
    induction l with
    | nil => intro cur _; simp [splitSlashAux]
    | cons c rest ih =>
      intro cur hmem
      have hc : c ≠ '/' := fun hc => hmem (hc ▸ List.mem_cons_self c rest)
      rw [show splitSlashAux (c :: rest) cur = splitSlashAux rest (c :: cur) by
        simp [splitSlashAux, hc]]
      rw [ih (c :: cur) (fun hm => hmem (List.mem_cons_of_mem c hm))]
      simp
  rw [this s.data [] h]
  simp

/-- C5 (amended): attachment filenames are sanitized, but thread ids are
joined into the path unsanitized; for every email and base, and every
thread id that is a single clean path segment (non-empty, not `.` or `..`,
containing no `/`), the four resolved locations stay inside the account
subtree, each being `accountDir` plus a fixed suffix — while a thread id
containing `..` escapes (see the counterexample). -/
theorem pathResolver_stays_in_account_subtree
    (email threadId base : String)
    (h1 : ¬ '/' ∈ threadId.data) (h2 : threadId ≠ "")
    (h3 : threadId ≠ ".") (h4 : threadId ≠ "..") :
    threadDir email threadId base
      = accountDir email base ++ ["threads", threadId] ∧
    messagesDir email threadId base
      = accountDir email base ++ ["threads", threadId, "messages"] ∧
    attachmentsDir email threadId base
      = accountDir email base ++ ["threads", threadId, "attachments"] ∧
    threadMetaPath email threadId base
      = accountDir email base ++ ["threads", threadId, "thread.json"] := by
  have hthreads : joinPath (accountDir email base) "threads"
      = accountDir email base ++ ["threads"] := rfl
  have htid : threadDir email threadId base
      = accountDir email base ++ ["threads", threadId] := by
    show joinPath (joinPath (accountDir email base) "threads") threadId = _
    rw [hthreads]
    unfold joinPath
    rw [splitSlash_single threadId h1, List.foldl_cons, List.foldl_nil]
    unfold normStep
    rw [if_neg (by simp [h2, h3]), if_neg h4]
    simp
  refine ⟨htid, ?_, ?_, ?_⟩
  · unfold messagesDir joinPath
    rw [htid]
    simp [splitSlash, splitSlashAux, normStep]
  · unfold attachmentsDir joinPath
    rw [htid]
    simp [splitSlash, splitSlashAux, normStep]
  · unfold threadMetaPath joinPath
    rw [htid]
    simp [splitSlash, splitSlashAux, normStep]

/-- Witness for C5: a clean thread id resolves inside the account subtree. -/
theorem pathResolver_stays_in_account_subtree_witness :
    threadDir "user@example.com" "a1b2c3d4" "/data"
      = accountDir "user@example.com" "/data" ++ ["threads", "a1b2c3d4"] ∧
    messagesDir "user@example.com" "a1b2c3d4" "/data"
      = accountDir "user@example.com" "/data"
          ++ ["threads", "a1b2c3d4", "messages"] :=
  ⟨(pathResolver_stays_in_account_subtree "user@example.com" "a1b2c3d4" "/data"
      (by decide) (by decide) (by decide) (by decide)).1,
   (pathResolver_stays_in_account_subtree "user@example.com" "a1b2c3d4" "/data"
      (by decide) (by decide) (by decide) (by decide)).2.1⟩


end ClawMail
